import Mathlib

/-!
Shallow embedding of `packages/zapier-platform-schema/lib/utils/buildDocs.js`:
a documentation generator that walks a schema dependency graph, deduplicates
nodes by `id`, renders one Markdown section per schema and assembles the final
document.  JavaScript strings are Lean `String`s, JavaScript values appearing
as examples or enum members are modelled by the inductive `JsValue`, absent
object fields are `Option.none`, and the single `throw` in the source is
modelled with `Except String`.
-/

set_option maxRecDepth 8000

/-! ### Small JavaScript string helpers -/

/-- The backtick character (code point 96). -/
def backtickChar : Char := Char.ofNat 96

/-- Remove the first occurrence of the character `c` from a list. -/
def removeFirstChar (c : Char) : List Char → List Char
  | [] => []
  | x :: xs => if x = c then xs else x :: removeFirstChar c xs

/-- JavaScript `val.replace('\x60', '')`: `String.prototype.replace` with a
string pattern replaces only the FIRST occurrence of the pattern. -/
def replaceFirstBacktick (s : String) : String :=
  String.mk (removeFirstChar backtickChar s.data)

/-- JavaScript truthiness of a possibly-absent string (`undefined` and the
empty string are falsy). -/
def truthyStr : Option String → Bool
  | none => false
  | some s => s ≠ ""

/-- `quoteOrNa` from buildDocs.js:
`val => (val ? \x60${val.replace('\x60', '')}\x60 : '_n/a_')`. -/
def quoteOrNa (val : Option String) : String :=
  if truthyStr val then "`" ++ replaceFirstBacktick (val.getD "") ++ "`"
  else "_n/a_"

/-- JavaScript `x || y` for a possibly-absent string `x` with default `y`. -/
def orElseStr (x : Option String) (y : String) : String :=
  if truthyStr x then x.getD "" else y

/-- The `NO_DESCRIPTION` constant from buildDocs.js. -/
def NO_DESCRIPTION : String := "_No description given._"

/-- JavaScript template-literal stringification of a possibly-absent string
(`undefined` prints as "undefined"). -/
def tplStr : Option String → String
  | none => "undefined"
  | some s => s

/-- `Array.prototype.join` on a list of strings. -/
def joinSep (sep : String) : List String → String
  | [] => ""
  | [x] => x
  | x :: y :: rest => x ++ sep ++ joinSep sep (y :: rest)

/-- Whitespace as trimmed by JavaScript `String.prototype.trim`. -/
def isWsChar (c : Char) : Bool :=
  c = ' ' || c = '\n' || c = '\t' || c = '\r'

/-- Trim leading and trailing whitespace (JavaScript `trim`). -/
def jsTrim (s : String) : String :=
  String.mk (((s.data.dropWhile isWsChar).reverse.dropWhile isWsChar).reverse)

/-! ### JavaScript values (examples, anti-examples, enum members)

A mutual family is used instead of nesting `List` so that all recursive
functions below are structural and compute inside the kernel. -/

mutual
inductive JsValue : Type where
  | vStr (s : String)
  | vNum (n : Int)
  | vBool (b : Bool)
  | vNull
  | vArr (elems : JsList)
  | vObj (fields : JsFields)
deriving DecidableEq
inductive JsList : Type where
  | nil
  | cons (head : JsValue) (tail : JsList)
deriving DecidableEq
inductive JsFields : Type where
  | nil
  | cons (key : String) (val : JsValue) (tail : JsFields)
deriving DecidableEq
end

mutual
/-- Modelled from the spec: the generic value inspector (`util.inspect` with
`depth: null` and `breakLength: Infinity`, an external Node.js collaborator
that is not part of this repository): a readable, fully expanded, single-line
textual form of a value. -/
def inspect : JsValue → String
  | .vStr s => "\x27" ++ s ++ "\x27"
  | .vNum n => toString n
  | .vBool b => if b then "true" else "false"
  | .vNull => "null"
  | .vArr .nil => "[]"
  | .vArr (.cons x xs) => "[ " ++ joinSep ", " (inspectList (.cons x xs)) ++ " ]"
  | .vObj .nil => "\x7b\x7d"
  | .vObj (.cons k v fs) =>
      "\x7b " ++ joinSep ", " (inspectFields (.cons k v fs)) ++ " \x7d"
def inspectList : JsList → List String
  | .nil => []
  | .cons x xs => inspect x :: inspectList xs
def inspectFields : JsFields → List String
  | .nil => []
  | .cons k v fs => (k ++ ": " ++ inspect v) :: inspectFields fs
end

/-- lodash `_.isPlainObject`: true exactly for plain objects (not arrays, not
`null`, not scalars). -/
def isPlainObject : JsValue → Bool
  | .vObj _ => true
  | _ => false

/-- Keys of an object's field list. -/
def fieldKeys : JsFields → List String
  | .nil => []
  | .cons k _ fs => k :: fieldKeys fs

/-- lodash `_.omit(o, key)`: drop every field named `key`. -/
def omitKey (key : String) : JsFields → JsFields
  | .nil => .nil
  | .cons k v fs => if k = key then omitKey key fs else .cons k v (omitKey key fs)

/-- Modelled from the spec: `SKIP_KEY` from `lib/constants.js` (not under
`src/`), the designated internal sentinel key that marks a field of an example
object as suppressed from documentation output. -/
def SKIP_KEY : String := "skip"

/-- The conditional strip in `formatExample`:
`_.isPlainObject(example) ? _.omit(example, SKIP_KEY) : example`. -/
def stripSkipKey : JsValue → JsValue
  | .vObj fields => JsValue.vObj (omitKey SKIP_KEY fields)
  | other => other

/-- `formatExample` from buildDocs.js: render one example as a Markdown bullet,
first stripping the sentinel key when the example is a plain object. -/
def formatExample (ex : JsValue) : String :=
  "* " ++ quoteOrNa (some (inspect (stripSkipKey ex)))

/-! ### Schema descriptors

`Sch` is the shape of a `schema` object (also of a property descriptor, which
in the source is the same kind of object plus `docAnnotation` and
`description`).  The recursive positions (`items`, the combinator lists and
the property maps) are members of the mutual family so that every function on
them is structural. -/

/-- A `docAnnotation.required` value: either a falsy value (`null`, `false`,
`0`, `''` — skipped by the source's truthiness test) or a truthy object with
optional `type` and a `value`. -/
inductive DocAnn : Type where
  | nullish
  | obj (atype : Option String) (avalue : String)
deriving DecidableEq

mutual
inductive Sch : Type where
  | mk (type : Option String) (items : SchOpt) (ref : Option String)
       (anyOf : SchList) (allOf : SchList) (oneOf : SchList)
       (enum : List JsValue) (pattern : Option String)
       (description : Option String)
       (properties : PropsOpt) (patternProperties : PropsOpt)
       (required : Option (List String))
       (examples : Option (List JsValue)) (antiExamples : Option (List JsValue))
       (docAnnotationRequired : Option DocAnn)
deriving DecidableEq
inductive SchOpt : Type where
  | none
  | some (s : Sch)
deriving DecidableEq
inductive SchList : Type where
  | nil
  | cons (head : Sch) (tail : SchList)
deriving DecidableEq
inductive PropsOpt : Type where
  | none
  | some (ps : PropList)
deriving DecidableEq
inductive PropList : Type where
  | nil
  | cons (key : String) (property : Sch) (tail : PropList)
deriving DecidableEq
end

def Sch.type : Sch → Option String
  | .mk t _ _ _ _ _ _ _ _ _ _ _ _ _ _ => t

def Sch.items : Sch → SchOpt
  | .mk _ i _ _ _ _ _ _ _ _ _ _ _ _ _ => i

def Sch.ref : Sch → Option String
  | .mk _ _ r _ _ _ _ _ _ _ _ _ _ _ _ => r

def Sch.anyOf : Sch → SchList
  | .mk _ _ _ a _ _ _ _ _ _ _ _ _ _ _ => a

def Sch.allOf : Sch → SchList
  | .mk _ _ _ _ a _ _ _ _ _ _ _ _ _ _ => a

def Sch.oneOf : Sch → SchList
  | .mk _ _ _ _ _ o _ _ _ _ _ _ _ _ _ => o

def Sch.enum : Sch → List JsValue
  | .mk _ _ _ _ _ _ e _ _ _ _ _ _ _ _ => e

def Sch.pattern : Sch → Option String
  | .mk _ _ _ _ _ _ _ p _ _ _ _ _ _ _ => p

def Sch.description : Sch → Option String
  | .mk _ _ _ _ _ _ _ _ d _ _ _ _ _ _ => d

def Sch.properties : Sch → PropsOpt
  | .mk _ _ _ _ _ _ _ _ _ ps _ _ _ _ _ => ps

def Sch.patternProperties : Sch → PropsOpt
  | .mk _ _ _ _ _ _ _ _ _ _ pp _ _ _ _ => pp

def Sch.required : Sch → Option (List String)
  | .mk _ _ _ _ _ _ _ _ _ _ _ r _ _ _ => r

def Sch.examples : Sch → Option (List JsValue)
  | .mk _ _ _ _ _ _ _ _ _ _ _ _ e _ _ => e

def Sch.antiExamples : Sch → Option (List JsValue)
  | .mk _ _ _ _ _ _ _ _ _ _ _ _ _ a _ => a

def Sch.docAnnotationRequired : Sch → Option DocAnn
  | .mk _ _ _ _ _ _ _ _ _ _ _ _ _ _ d => d

/-- True when the optional `items` descriptor is present (any object is
truthy in JavaScript). -/
def SchOpt.isPresent : SchOpt → Bool
  | .none => false
  | .some _ => true

/-- JavaScript `schema[key] && schema[key].length` on a combinator list:
present and non-empty. -/
def SchList.nonEmpty : SchList → Bool
  | .nil => false
  | .cons _ _ => true

def PropList.isNil : PropList → Bool
  | .nil => true
  | .cons _ _ _ => false

/-! ### External collaborators (not under `src/`) -/

/-- Modelled from the spec: the anchor-naming helper from `lib/utils/links.js`
(not under `src/`): a pure function from a node `id` to an intra-document
anchor string. -/
def anchor (id : String) : String := "#" ++ id

/-- Modelled from the spec: the code-link helper from `lib/utils/links.js`
(not under `src/`): a pure function from a node `id` to a source-code URL. -/
def makeCodeLink (id : String) : String := "https://example.test/schemas" ++ id ++ ".js"

/-- Modelled from the spec: the version string read from external package
metadata (`package.json`, not under `src/`). -/
def packageVersion : String := "0.0.0"

/-! ### `typeOrLink` -/

mutual
/-- `typeOrLink` from buildDocs.js: display of a type (or link to a `$ref`),
tried in source order: array-with-items, `$ref`, the combinators
`anyOf`/`allOf`/`oneOf`, non-empty `enum`, then the plain `type`. -/
def typeOrLink : Sch → String
  | .mk ty items ref aOf lOf oOf en _ _ _ _ _ _ _ _ =>
    if ty == some "array" && SchOpt.isPresent items then
      quoteOrNa ty ++ "[" ++ typeOrLinkOpt items ++ "]"
    else if truthyStr ref then
      "[" ++ ref.getD "" ++ "](" ++ anchor (ref.getD "") ++ ")"
    else if SchList.nonEmpty aOf then
      "anyOf(" ++ joinSep ", " (typeOrLinkList aOf) ++ ")"
    else if SchList.nonEmpty lOf then
      "allOf(" ++ joinSep ", " (typeOrLinkList lOf) ++ ")"
    else if SchList.nonEmpty oOf then
      "oneOf(" ++ joinSep ", " (typeOrLinkList oOf) ++ ")"
    else if !en.isEmpty then
      quoteOrNa ty ++ " in (" ++
        joinSep ", " (en.map (fun v => quoteOrNa (some (inspect v)))) ++ ")"
    else quoteOrNa ty
def typeOrLinkOpt : SchOpt → String
  | .none => ""
  | .some s => typeOrLink s
def typeOrLinkList : SchList → List String
  | .nil => []
  | .cons s rest => typeOrLink s :: typeOrLinkList rest
end

/-! ### Property rows -/

/-- The row template at the end of `processProperty`. -/
def propRow (key : String) (property : Sch) (isRequired : String) : String :=
  quoteOrNa (some key) ++ " | " ++ isRequired ++ " | " ++ typeOrLink property ++
    " | " ++ orElseStr (Sch.description property) NO_DESCRIPTION

/-- `processProperty` from buildDocs.js.  The default required-column text is
`**yes**`/`no`; a truthy `docAnnotation.required` either replaces it, appends
to it, or (for any other `type`) throws, which is modelled with
`Except.error`. -/
def processProperty (key : String) (property : Sch) (propIsRequired : Bool) :
    Except String String :=
  let isRequired := if propIsRequired then "**yes**" else "no"
  match Sch.docAnnotationRequired property with
  | Option.none => Except.ok (propRow key property isRequired)
  | Option.some DocAnn.nullish => Except.ok (propRow key property isRequired)
  | Option.some (DocAnn.obj atype avalue) =>
    if atype == some "replace" then Except.ok (propRow key property avalue)
    else if atype == some "append" then
      Except.ok (propRow key property (isRequired ++ avalue))
    else Except.error ("unrecognized docAnnotation type: " ++ tplStr atype)

/-- `Object.keys(properties).map(...)` over the property rows; the first
thrown error aborts the whole map. -/
def processProps (required : List String) : PropList → Except String (List String)
  | .nil => Except.ok []
  | .cons key property rest => do
    let row ← processProperty key property (required.contains key)
    let rows ← processProps required rest
    Except.ok (row :: rows)

/-! ### Schema nodes and the graph walk -/

mutual
inductive SchemaNode : Type where
  | mk (id : String) (schema : Sch) (dependencies : NodeList)
deriving DecidableEq
inductive NodeList : Type where
  | nil
  | cons (head : SchemaNode) (tail : NodeList)
deriving DecidableEq
end

def nodeId : SchemaNode → String
  | .mk i _ _ => i

def nodeSchema : SchemaNode → Sch
  | .mk _ s _ => s

def nodeDeps : SchemaNode → NodeList
  | .mk _ _ d => d

/-- JavaScript object assignment `schemas[k] = v` on an insertion-ordered
object: an existing key keeps its position and gets the new value, a new key
is appended. -/
def objInsert (m : List (String × SchemaNode)) (k : String) (v : SchemaNode) :
    List (String × SchemaNode) :=
  if m.any (fun p => p.1 == k) then
    m.map (fun p => if p.1 == k then (p.1, v) else p)
  else m ++ [(k, v)]

mutual
/-- `walkSchemas` composed with the `collectSchemas` callback
(`schemas[Schema.id] = Schema`): visit a node, record it, then recurse into
every dependency unconditionally (the source has no visited-check).  On the
inductive (finite, acyclic) graphs of this embedding the recursion is
structural. -/
def walkCollect (acc : List (String × SchemaNode)) : SchemaNode → List (String × SchemaNode)
  | .mk i s deps => walkCollectList (objInsert acc i (.mk i s deps)) deps
def walkCollectList (acc : List (String × SchemaNode)) : NodeList → List (String × SchemaNode)
  | .nil => acc
  | .cons d ds => walkCollectList (walkCollect acc d) ds
end

/-- `collectSchemas` from buildDocs.js. -/
def collectSchemas (InitSchema : SchemaNode) : List (String × SchemaNode) :=
  walkCollect [] InitSchema

mutual
/-- All `id`s reachable from a node through `dependencies` (with repetitions). -/
def reachableIds : SchemaNode → List String
  | .mk i _ deps => i :: reachableIdsList deps
def reachableIdsList : NodeList → List String
  | .nil => []
  | .cons n rest => reachableIds n ++ reachableIdsList rest
end

/-! ### Per-schema rendering -/

/-- `makeExampleSection` from buildDocs.js. -/
def makeExampleSection (Schema : SchemaNode) : String :=
  let examples := (Sch.examples (nodeSchema Schema)).getD []
  if examples.isEmpty then ""
  else "#### Examples\n\n" ++ joinSep "\n" (examples.map formatExample) ++ "\n"

/-- `makeAntiExampleSection` from buildDocs.js. -/
def makeAntiExampleSection (Schema : SchemaNode) : String :=
  let examples := (Sch.antiExamples (nodeSchema Schema)).getD []
  if examples.isEmpty then ""
  else "#### Anti-Examples\n\n" ++ joinSep "\n" (examples.map formatExample) ++ "\n"

/-- `Schema.schema.properties || Schema.schema.patternProperties || \x7b\x7d`:
a present (even empty) `properties` object is truthy and wins. -/
def chosenProps (Schema : SchemaNode) : PropList :=
  match Sch.properties (nodeSchema Schema) with
  | .some ps => ps
  | .none =>
    match Sch.patternProperties (nodeSchema Schema) with
    | .some ps => ps
    | .none => PropList.nil

/-- `makePropertiesSection` from buildDocs.js. -/
def makePropertiesSection (Schema : SchemaNode) : Except String String :=
  let properties := chosenProps Schema
  if PropList.isNil properties then Except.ok ""
  else do
    let rows ← processProps ((Sch.required (nodeSchema Schema)).getD []) properties
    Except.ok ("#### Properties\n\nKey | Required | Type | Description\n" ++
      "--- | -------- | ---- | -----------\n" ++ joinSep "\n" rows ++ "\n")

/-- `makeMarkdownSection` from buildDocs.js: one Markdown block per schema. -/
def makeMarkdownSection (Schema : SchemaNode) : Except String String := do
  let propsSection ← makePropertiesSection Schema
  Except.ok (jsTrim (
    "## " ++ nodeId Schema ++ "\n\n" ++
    orElseStr (Sch.description (nodeSchema Schema)) NO_DESCRIPTION ++ "\n\n" ++
    "#### Details\n\n" ++
    "* **Type** - " ++ typeOrLink (nodeSchema Schema) ++ "\n" ++
    "* **Pattern** - " ++ quoteOrNa (Sch.pattern (nodeSchema Schema)) ++ "\n" ++
    "* **Source Code** - [lib/schemas" ++ nodeId Schema ++ ".js](" ++
      makeCodeLink (nodeId Schema) ++ ")\n\n" ++
    makeExampleSection Schema ++ "\n" ++
    makeAntiExampleSection Schema ++ "\n" ++
    propsSection ++ "\n"))

/-! ### Sorting by `id` (lodash `sortBy('id')`) -/

/-- Lexicographic `≤` on character lists by code point (JavaScript string
comparison). -/
def listLexLe : List Char → List Char → Bool
  | [], _ => true
  | _ :: _, [] => false
  | a :: as, b :: bs =>
    if a.toNat < b.toNat then true
    else if b.toNat < a.toNat then false
    else listLexLe as bs

/-- String `≤` by code points. -/
def strLeB (a b : String) : Bool := listLexLe a.data b.data

def insertByIdLe (n : SchemaNode) : List SchemaNode → List SchemaNode
  | [] => [n]
  | m :: rest =>
    if strLeB (nodeId n) (nodeId m) then n :: m :: rest
    else m :: insertByIdLe n rest

/-- Insertion sort of nodes by `id`, ascending — the `sortBy('id')` step. -/
def sortByIdLe : List SchemaNode → List SchemaNode
  | [] => []
  | n :: rest => insertByIdLe n (sortByIdLe rest)

/-! ### Document assembly -/

/-- Render every sorted node; the first error aborts the whole map. -/
def renderAll : List SchemaNode → Except String (List String)
  | [] => Except.ok []
  | n :: rest => do
    let s ← makeMarkdownSection n
    let ss ← renderAll rest
    Except.ok (s :: ss)

def splitLinesAux (cur : List Char) : List Char → List String
  | [] => [String.mk cur.reverse]
  | c :: rest =>
    if c = '\n' then String.mk cur.reverse :: splitLinesAux [] rest
    else splitLinesAux (c :: cur) rest

/-- Split a string into lines at newline characters. -/
def splitLines (s : String) : List String := splitLinesAux [] s.data

/-- `pre` is a literal prefix of `s`. -/
def startsWithStr (pre s : String) : Bool := pre.data.isPrefixOf s.data

/-- Drop the first `n` characters. -/
def dropChars (n : Nat) (s : String) : String := String.mk (s.data.drop n)

/-- A table-of-contents bullet for a heading line of depth at most 2. -/
def tocEntry (line : String) : Option String :=
  if startsWithStr "## " line then
    some ("* [" ++ dropChars 3 line ++ "](" ++ anchor (dropChars 3 line) ++ ")")
  else if startsWithStr "# " line then
    some ("* [" ++ dropChars 2 line ++ "](" ++ anchor (dropChars 2 line) ++ ")")
  else none

/-- Modelled from the spec: the external table-of-contents generator
(`markdown-toc`, `toc.insert(docs, \x7b maxdepth: 2, bullets: '*' \x7d)`, not
part of this repository): scan the heading structure up to depth 2 and splice
a bullet list of links in place of the `<!-- toc -->` placeholder, leaving
every other line unchanged. -/
def tocInsert (doc : String) : String :=
  let lines := splitLines doc
  let entries := lines.filterMap tocEntry
  joinSep "\n" (lines.map (fun l =>
    if l == "<!-- toc -->" then joinSep "\n" entries else l))

/-- `buildDocs` from buildDocs.js: collect, sort by `id`, render each section,
join with horizontal rules, wrap in the document template, trim, and insert
the table of contents. -/
def buildDocs (InitSchema : SchemaNode) : Except String String := do
  let schemas := collectSchemas InitSchema
  let sorted := sortByIdLe (schemas.map Prod.snd)
  let sections ← renderAll sorted
  let markdownSections := joinSep "\n\n-----\n\n" sections
  let docs := jsTrim (
    "<!-- \x7b% raw %\x7d -->\n" ++
    "# `zapier-platform-schema` Generated Documentation\n\n" ++
    "This is automatically generated by the `npm run docs` command in " ++
    "`zapier-platform-schema` version " ++ quoteOrNa (some packageVersion) ++
    ".\n\n-----\n\n## Index\n<!-- toc -->\n\n-----\n\n" ++
    markdownSections ++ "\n<!-- \x7b% endraw %\x7d -->\n")
  Except.ok (tocInsert docs)

/-! ### String search helpers for end-to-end statements -/

def containsSubList (needle : List Char) : List Char → Bool
  | [] => needle.isEmpty
  | c :: rest => needle.isPrefixOf (c :: rest) || containsSubList needle rest

/-- `needle` occurs as a contiguous substring of `hay`. -/
def containsSub (hay needle : String) : Bool := containsSubList needle.data hay.data

/-- The build succeeded and its document contains `sub`. -/
def okContains (e : Except String String) (sub : String) : Bool :=
  match e with
  | .ok s => containsSub s sub
  | .error _ => false

/-- The build succeeded and its document does NOT contain `sub`. -/
def okAvoids (e : Except String String) (sub : String) : Bool :=
  match e with
  | .ok s => !containsSub s sub
  | .error _ => false

/-! ### Concrete building blocks used by several claims -/

/-- A schema object with every optional field absent. -/
def emptySch : Sch :=
  Sch.mk Option.none SchOpt.none Option.none SchList.nil SchList.nil SchList.nil
    [] Option.none Option.none PropsOpt.none PropsOpt.none Option.none
    Option.none Option.none Option.none

/-- `\x7b type: t \x7d`. -/
def schOfType (t : String) : Sch :=
  Sch.mk (Option.some t) SchOpt.none Option.none SchList.nil SchList.nil
    SchList.nil [] Option.none Option.none PropsOpt.none PropsOpt.none
    Option.none Option.none Option.none Option.none

/-- The root node of the end-to-end example:
`\x7b id: "/Foo", schema: \x7b type: "string" \x7d, dependencies: [] \x7d`. -/
def fooNode : SchemaNode := SchemaNode.mk "/Foo" (schOfType "string") NodeList.nil

/-! ### The traversal on general (possibly cyclic) graphs

JavaScript objects are references, so a node's `dependencies` can reach an
ancestor again.  The inductive trees above cannot express that, so the walk
is also embedded over an id-indexed adjacency list, with an explicit bound on
the recursion depth; `Option.none` means the bound was exceeded. -/

/-- Dependencies (as ids) of the node with id `i`. -/
def graphDeps (g : List (String × List String)) (i : String) : List String :=
  match g.find? (fun p => p.1 == i) with
  | Option.some p => p.2
  | Option.none => []

/-- Record an id as a key of the collected-schemas object. -/
def recordId (acc : List String) (i : String) : List String :=
  if acc.contains i then acc else acc ++ [i]

mutual
/-- `walkSchemas` with the `collectSchemas` callback, over a general graph:
record `Schema.id`, then recurse into every dependency unconditionally — the
source has no check of already-recorded ids. -/
def walkFuel (g : List (String × List String)) :
    Nat → List String → String → Option (List String)
  | 0, _, _ => Option.none
  | Nat.succ fuel, acc, i => walkFuelList g fuel (recordId acc i) (graphDeps g i)
termination_by fuel _ _ => (fuel, 0)
def walkFuelList (g : List (String × List String)) :
    Nat → List String → List String → Option (List String)
  | _, acc, [] => Option.some acc
  | fuel, acc, d :: ds =>
    match walkFuel g fuel acc d with
    | Option.none => Option.none
    | Option.some acc2 => walkFuelList g fuel acc2 ds
termination_by fuel _ ds => (fuel, ds.length + 1)
end

/-- The one-node graph whose node's `dependencies` contain the node itself:
a true cycle back to an ancestor. -/
def selfLoopGraph : List (String × List String) := [("/A", ["/A"])]

/-! ### Collector invariants -/

def keysOf (m : List (String × SchemaNode)) : List String := m.map Prod.fst

theorem keysOf_objInsert (m : List (String × SchemaNode)) (k : String) (v : SchemaNode) :
    keysOf (objInsert m k v) = if k ∈ keysOf m then keysOf m else keysOf m ++ [k] := by
  have hany : (m.any (fun p => p.1 == k)) = true ↔ k ∈ keysOf m := by
    simp [List.any_eq_true, keysOf, List.mem_map]
  unfold objInsert
  by_cases h : k ∈ keysOf m
  · rw [if_pos (hany.mpr h), if_pos h]
    simp only [keysOf, List.map_map]
    refine List.map_congr_left (fun p _ => ?_)
    by_cases hp : p.1 = k <;> simp [hp]
  · rw [if_neg (fun hc => h (hany.mp hc)), if_neg h]
    simp [keysOf]

theorem mem_keysOf_objInsert (m : List (String × SchemaNode)) (k i : String) (v : SchemaNode) :
    i ∈ keysOf (objInsert m k v) ↔ i ∈ keysOf m ∨ i = k := by
  rw [keysOf_objInsert]
  by_cases h : k ∈ keysOf m
  · rw [if_pos h]
    constructor
    · exact Or.inl
    · rintro (hi | rfl)
      · exact hi
      · exact h
  · rw [if_neg h]; simp

theorem nodup_keysOf_objInsert (m : List (String × SchemaNode)) (k : String) (v : SchemaNode)
    (h : (keysOf m).Nodup) : (keysOf (objInsert m k v)).Nodup := by
  rw [keysOf_objInsert]
  by_cases hk : k ∈ keysOf m
  · rwa [if_pos hk]
  · rw [if_neg hk]
    simp [List.nodup_append, h, hk]

theorem entryId_objInsert (m : List (String × SchemaNode)) (k : String) (v : SchemaNode)
    (h : ∀ p ∈ m, nodeId p.2 = p.1) (hv : nodeId v = k) :
    ∀ p ∈ objInsert m k v, nodeId p.2 = p.1 := by
  intro p hp
  unfold objInsert at hp
  by_cases hc : (m.any (fun p => p.1 == k)) = true
  · rw [if_pos hc] at hp
    rcases List.mem_map.mp hp with ⟨q, hq, rfl⟩
    by_cases hq1 : q.1 = k <;> simp [hq1, hv, h q hq]
  · rw [if_neg hc] at hp
    rcases List.mem_append.mp hp with hp | hp
    · exact h p hp
    · rcases List.mem_singleton.mp hp with rfl
      exact hv

mutual
theorem walkCollect_inv (n : SchemaNode) (acc : List (String × SchemaNode)) :
    (∀ i, i ∈ keysOf (walkCollect acc n) ↔ i ∈ keysOf acc ∨ i ∈ reachableIds n) ∧
    ((keysOf acc).Nodup → (keysOf (walkCollect acc n)).Nodup) ∧
    ((∀ p ∈ acc, nodeId p.2 = p.1) → ∀ p ∈ walkCollect acc n, nodeId p.2 = p.1) := by
  cases n with
  | mk i s deps =>
    have h := walkCollectList_inv deps (objInsert acc i (SchemaNode.mk i s deps))
    refine ⟨fun j => ?_, fun hn => ?_, fun he => ?_⟩
    · rw [show walkCollect acc (SchemaNode.mk i s deps)
          = walkCollectList (objInsert acc i (SchemaNode.mk i s deps)) deps from rfl]
      rw [h.1 j, mem_keysOf_objInsert, show reachableIds (SchemaNode.mk i s deps)
          = i :: reachableIdsList deps from rfl, List.mem_cons]
      tauto
    · rw [show walkCollect acc (SchemaNode.mk i s deps)
          = walkCollectList (objInsert acc i (SchemaNode.mk i s deps)) deps from rfl]
      exact h.2.1 (nodup_keysOf_objInsert _ _ _ hn)
    · rw [show walkCollect acc (SchemaNode.mk i s deps)
          = walkCollectList (objInsert acc i (SchemaNode.mk i s deps)) deps from rfl]
      exact h.2.2 (entryId_objInsert _ _ _ he rfl)
theorem walkCollectList_inv (ds : NodeList) (acc : List (String × SchemaNode)) :
    (∀ i, i ∈ keysOf (walkCollectList acc ds) ↔ i ∈ keysOf acc ∨ i ∈ reachableIdsList ds) ∧
    ((keysOf acc).Nodup → (keysOf (walkCollectList acc ds)).Nodup) ∧
    ((∀ p ∈ acc, nodeId p.2 = p.1) → ∀ p ∈ walkCollectList acc ds, nodeId p.2 = p.1) := by
  cases ds with
  | nil => simp [walkCollectList, reachableIdsList]
  | cons d rest =>
    have h1 := walkCollect_inv d acc
    have h2 := walkCollectList_inv rest (walkCollect acc d)
    refine ⟨fun j => ?_, fun hn => ?_, fun he => ?_⟩
    · rw [show walkCollectList acc (NodeList.cons d rest)
          = walkCollectList (walkCollect acc d) rest from rfl]
      rw [h2.1 j, h1.1 j, show reachableIdsList (NodeList.cons d rest)
          = reachableIds d ++ reachableIdsList rest from rfl, List.mem_append]
      tauto
    · rw [show walkCollectList acc (NodeList.cons d rest)
          = walkCollectList (walkCollect acc d) rest from rfl]
      exact h2.2.1 (h1.2.1 hn)
    · rw [show walkCollectList acc (NodeList.cons d rest)
          = walkCollectList (walkCollect acc d) rest from rfl]
      exact h2.2.2 (h1.2.2 he)
end

theorem collect_keys_nodup (root : SchemaNode) : (keysOf (collectSchemas root)).Nodup := by
  exact (walkCollect_inv root []).2.1 (by simp [keysOf])

theorem collect_mem_keys (root : SchemaNode) (i : String) :
    i ∈ keysOf (collectSchemas root) ↔ i ∈ reachableIds root := by
  have h := (walkCollect_inv root []).1 i
  simpa [collectSchemas, keysOf] using h

theorem collect_entryId (root : SchemaNode) :
    ∀ p ∈ collectSchemas root, nodeId p.2 = p.1 := by
  exact (walkCollect_inv root []).2.2 (by simp)

/-! ## Claims -/

/-- **C1**: for every input dependency graph, the mapping returned by the
Collector (`collectSchemas`) contains exactly one entry per distinct `id`
reachable from the root — its key list is duplicate-free and its members are
exactly the reachable ids — each entry is keyed by the `id` of the node it
holds, and the root node's own `id` is always among the entries, regardless
of how many edges reference any node. -/
theorem collectSchemas_complete_unique (root : SchemaNode) :
    (keysOf (collectSchemas root)).Nodup ∧
    (∀ i, i ∈ keysOf (collectSchemas root) ↔ i ∈ reachableIds root) ∧
    (∀ p ∈ collectSchemas root, nodeId p.2 = p.1) ∧
    nodeId root ∈ keysOf (collectSchemas root) := by
  refine ⟨collect_keys_nodup root, collect_mem_keys root, collect_entryId root, ?_⟩
  rw [collect_mem_keys]
  cases root with
  | mk i s deps => simp [reachableIds, nodeId]

/-- **C2** (refuted as stated — code bug): on a dependency graph with a true
cycle back to an ancestor — here the node `"/A"` whose `dependencies` contain
the node itself — the traversal of `walkSchemas` does not terminate: the
source recurses into the children of the already-recorded id `"/A"`
unconditionally, so the walk exceeds every recursion-depth bound. -/
theorem walkSchemas_self_cycle_diverges :
    ∀ fuel acc, walkFuel selfLoopGraph fuel acc "/A" = Option.none := by
  intro fuel
  induction fuel with
  | zero => intro acc; simp [walkFuel]
  | succ f ih =>
    intro acc
    have hdeps : graphDeps selfLoopGraph "/A" = ["/A"] := by decide
    simp [walkFuel, hdeps, walkFuelList, ih]

/-- What the claim asserts `quoteOrNa` does to backticks: EVERY literal
backtick character removed (the source removes only the first). -/
def specStripAllBackticks (s : String) : String :=
  String.mk (s.data.filter (fun c => !(c == backtickChar)))

theorem removeFirstChar_of_not_mem (c : Char) (l : List Char) (h : c ∉ l) :
    removeFirstChar c l = l := by
  induction l with
  | nil => rfl
  | cons x xs ih =>
    have hx : x ≠ c := fun hx => h (by simp [hx])
    simp [removeFirstChar, hx]
    exact ih (fun hc => h (List.mem_cons_of_mem _ hc))

theorem removeFirstChar_append (c : Char) (pre post : List Char) (h : c ∉ pre) :
    removeFirstChar c (pre ++ c :: post) = pre ++ post := by
  induction pre with
  | nil => simp [removeFirstChar]
  | cons x xs ih =>
    have hx : x ≠ c := fun hx => h (by simp [hx])
    simp [removeFirstChar, hx]
    exact ih (fun hc => h (List.mem_cons_of_mem _ hc))

/-- **C3** counterexample: on the input `a\x60b\x60c` (two literal backticks)
the source keeps the second backtick, so the output differs from "input
wrapped in backticks with every literal backtick removed" as the claim
states. -/
theorem quoteOrNa_two_backticks_counterexample :
    quoteOrNa (some "a`b`c") ≠ "`" ++ specStripAllBackticks "a`b`c" ++ "`" := by
  decide

/-- **C3** (amended): `quoteOrNa` returns the literal `_n/a_` for falsy input
(absent or empty string), and for a truthy string returns the input wrapped
in backticks with only the FIRST literal backtick occurrence removed
(JavaScript `String.prototype.replace` with a string pattern replaces one
occurrence); in particular `quoteOrNa "a\x60b"` is `ab` wrapped in
backticks. -/
theorem quoteOrNa_first_backtick_amended :
    (quoteOrNa Option.none = "_n/a_" ∧ quoteOrNa (some "") = "_n/a_") ∧
    (∀ pre post : List Char, backtickChar ∉ pre →
      quoteOrNa (some (String.mk (pre ++ backtickChar :: post)))
        = "`" ++ String.mk (pre ++ post) ++ "`") ∧
    (∀ s : String, s ≠ "" → backtickChar ∉ s.data →
      quoteOrNa (some s) = "`" ++ s ++ "`") ∧
    quoteOrNa (some "a`b") = "`ab`" := by
  refine ⟨⟨rfl, rfl⟩, ?_, ?_, by decide⟩
  · intro pre post h
    have hne : String.mk (pre ++ backtickChar :: post) ≠ "" := by
      intro hc
      have hdata : (pre ++ backtickChar :: post) = [] := congrArg String.data hc
      simp at hdata
    simp [quoteOrNa, truthyStr, hne, replaceFirstBacktick,
      removeFirstChar_append _ _ _ h]
  · intro s hs hb
    simp [quoteOrNa, truthyStr, hs, replaceFirstBacktick,
      removeFirstChar_of_not_mem _ _ hb]

/-- Witness for the amended C3 theorem at concrete inputs. -/
theorem quoteOrNa_first_backtick_amended_witness :
    (quoteOrNa (some (String.mk (['a'] ++ backtickChar :: ['b'])))
      = "`" ++ String.mk (['a'] ++ ['b']) ++ "`") ∧
    quoteOrNa (some "xy") = "`xy`" :=
  ⟨quoteOrNa_first_backtick_amended.2.1 ['a'] ['b'] (by decide),
   quoteOrNa_first_backtick_amended.2.2.1 "xy" (by decide) (by decide)⟩

theorem skipKey_not_in_omit (key : String) (fs : JsFields) :
    key ∉ fieldKeys (omitKey key fs) := by
  cases fs with
  | nil => simp [omitKey, fieldKeys]
  | cons k v rest =>
    have ih := skipKey_not_in_omit key rest
    by_cases h : k = key
    · simp [omitKey, h, ih]
    · simp only [omitKey, if_neg h, fieldKeys, List.mem_cons]
      push_neg
      exact ⟨fun hc => h hc.symm, ih⟩

theorem omitKey_idem (key : String) (fs : JsFields) :
    omitKey key (omitKey key fs) = omitKey key fs := by
  cases fs with
  | nil => rfl
  | cons k v rest =>
    have ih := omitKey_idem key rest
    by_cases h : k = key
    · simp [omitKey, h, ih]
    · simp [omitKey, h, ih]

/-- **C8**: for every example value, `formatExample` strips the designated
skip-sentinel key from the example before inspecting it when the example is a
plain object (not an array, not `null`): the rendered line equals the
rendering of the object with its sentinel fields removed, the inspected
object retains no field named `SKIP_KEY`, non-objects are inspected
unchanged, and concretely the sentinel field of `\x7b a: 1, skip: true \x7d`
does not reach the rendered example line. -/
theorem formatExample_strips_skip_key :
    (∀ fields, formatExample (JsValue.vObj fields)
      = "* " ++ quoteOrNa (some (inspect (JsValue.vObj (omitKey SKIP_KEY fields))))) ∧
    (∀ fields, SKIP_KEY ∉ fieldKeys (omitKey SKIP_KEY fields)) ∧
    (∀ fields, formatExample (JsValue.vObj fields)
      = formatExample (JsValue.vObj (omitKey SKIP_KEY fields))) ∧
    (∀ v, isPlainObject v = false →
      formatExample v = "* " ++ quoteOrNa (some (inspect v))) ∧
    formatExample (JsValue.vObj (JsFields.cons "a" (JsValue.vNum 1)
      (JsFields.cons SKIP_KEY (JsValue.vBool true) JsFields.nil)))
      = "* `\x7b a: 1 \x7d`" := by
  refine ⟨fun fields => rfl, fun fields => skipKey_not_in_omit _ _,
    fun fields => ?_, ?_, by decide⟩
  · simp [formatExample, stripSkipKey, omitKey_idem]
  · intro v hv
    cases v with
    | vObj fields => simp [isPlainObject] at hv
    | vStr s => rfl
    | vNum n => rfl
    | vBool b => rfl
    | vNull => rfl
    | vArr xs => rfl

/-- Witness for C8 at a concrete non-object input. -/
theorem formatExample_strips_skip_key_witness :
    formatExample JsValue.vNull = "* " ++ quoteOrNa (some (inspect JsValue.vNull)) :=
  formatExample_strips_skip_key.2.2.2.1 JsValue.vNull (by decide)

/-- **C6**: an empty or absent `examples` list, an empty or absent
`antiExamples` list, and an empty properties mapping each independently cause
the corresponding rendered block (Examples, Anti-Examples, Properties) to be
the empty string, with no heading emitted; for the Properties block this
covers a present-but-empty `properties` object, both property maps absent,
and absent `properties` with empty `patternProperties`. -/
theorem empty_sections_omitted (n : SchemaNode) :
    ((Sch.examples (nodeSchema n) = Option.none ∨
        Sch.examples (nodeSchema n) = some []) → makeExampleSection n = "") ∧
    ((Sch.antiExamples (nodeSchema n) = Option.none ∨
        Sch.antiExamples (nodeSchema n) = some []) → makeAntiExampleSection n = "") ∧
    (Sch.properties (nodeSchema n) = PropsOpt.some PropList.nil →
      makePropertiesSection n = Except.ok "") ∧
    (Sch.properties (nodeSchema n) = PropsOpt.none →
      Sch.patternProperties (nodeSchema n) = PropsOpt.none →
      makePropertiesSection n = Except.ok "") ∧
    (Sch.properties (nodeSchema n) = PropsOpt.none →
      Sch.patternProperties (nodeSchema n) = PropsOpt.some PropList.nil →
      makePropertiesSection n = Except.ok "") := by
  refine ⟨?_, ?_, ?_, ?_, ?_⟩
  · rintro (h | h) <;> simp [makeExampleSection, h]
  · rintro (h | h) <;> simp [makeAntiExampleSection, h]
  · intro h; simp [makePropertiesSection, chosenProps, h, PropList.isNil]
  · intro h1 h2; simp [makePropertiesSection, chosenProps, h1, h2, PropList.isNil]
  · intro h1 h2; simp [makePropertiesSection, chosenProps, h1, h2, PropList.isNil]

/-- Witness for C6 on the concrete root node of the end-to-end example. -/
theorem empty_sections_omitted_witness :
    makeExampleSection fooNode = "" ∧ makeAntiExampleSection fooNode = "" ∧
    makePropertiesSection fooNode = Except.ok "" :=
  ⟨(empty_sections_omitted fooNode).1 (Or.inl rfl),
   (empty_sections_omitted fooNode).2.1 (Or.inl rfl),
   (empty_sections_omitted fooNode).2.2.2.1 rfl rfl⟩

example : quoteOrNa (some "a`b`c") = "`ab`c`" := by decide

def isErrExcept : Except String String → Bool
  | .error _ => true
  | .ok _ => false

/-- When `processProperty` throws, as a function of the annotation value:
only a truthy annotation whose `type` is neither `"replace"` nor
`"append"`. -/
def annBad : Option DocAnn → Bool
  | Option.some (DocAnn.obj t _) => !(t == some "replace" || t == some "append")
  | _ => false

/-- A property descriptor carrying only a truthy `docAnnotation.required`
object with type `t` and value `v`. -/
def annProp (t : Option String) (v : String) : Sch :=
  Sch.mk Option.none SchOpt.none Option.none SchList.nil SchList.nil SchList.nil []
    Option.none Option.none PropsOpt.none PropsOpt.none Option.none Option.none
    Option.none (some (DocAnn.obj t v))

/-- A property descriptor whose `docAnnotation.required` is present but
falsy. -/
def nullishAnnProp : Sch :=
  Sch.mk Option.none SchOpt.none Option.none SchList.nil SchList.nil SchList.nil []
    Option.none Option.none PropsOpt.none PropsOpt.none Option.none Option.none
    Option.none (some DocAnn.nullish)

/-- A one-node graph whose only schema has a single property `x` annotated
with type `t` and value `v`. -/
def badPropNode (t : Option String) (v : String) : SchemaNode :=
  SchemaNode.mk "/Bad"
    (Sch.mk Option.none SchOpt.none Option.none SchList.nil SchList.nil SchList.nil []
      Option.none Option.none
      (PropsOpt.some (PropList.cons "x" (annProp t v) PropList.nil))
      PropsOpt.none Option.none Option.none Option.none Option.none)
    NodeList.nil

/-- **C10**: a present-but-falsy `docAnnotation.required` value is silently
ignored — the row renders with the default `**yes**`/`no` required-column
text and no error is raised — and `processProperty` errors exactly when the
annotation value is truthy with a `type` that is neither `"replace"` nor
`"append"`. -/
theorem processProperty_falsy_override_ignored (key : String) (r : Bool) (p : Sch) :
    (Sch.docAnnotationRequired p = some DocAnn.nullish →
      processProperty key p r
        = Except.ok (propRow key p (if r then "**yes**" else "no"))) ∧
    isErrExcept (processProperty key p r) = annBad (Sch.docAnnotationRequired p) := by
  constructor
  · intro h
    simp [processProperty, h]
  · cases hp : Sch.docAnnotationRequired p with
    | none => simp [processProperty, hp, isErrExcept, annBad]
    | some ann =>
      cases ann with
      | nullish => simp [processProperty, hp, isErrExcept, annBad]
      | obj t v =>
        by_cases ht : t = some "replace"
        · simp [processProperty, hp, ht, isErrExcept, annBad]
        · by_cases ht2 : t = some "append"
          · simp [processProperty, hp, ht, ht2, isErrExcept, annBad]
          · simp [processProperty, hp, ht, ht2, isErrExcept, annBad]

/-- Witness for C10: a falsy override on a required property renders the
default `**yes**` text. -/
theorem processProperty_falsy_override_ignored_witness :
    processProperty "x" nullishAnnProp true
      = Except.ok (propRow "x" nullishAnnProp "**yes**") :=
  (processProperty_falsy_override_ignored "x" true nullishAnnProp).1 rfl

/-- **C4**: the required-column text defaults to `**yes**` when the key is
required and `no` otherwise; a `docAnnotation.required` override of type
`"replace"` replaces that text with the annotation's value, `"append"`
appends the value to the default text, and any other type makes
`processProperty` throw an error naming the offending annotation type, which
aborts the entire `buildDocs` build with that error and no partial
document. -/
theorem processProperty_required_override_spec (key : String) (r : Bool) (p : Sch)
    (t : Option String) (v : String) :
    (Sch.docAnnotationRequired p = Option.none →
      processProperty key p r
        = Except.ok (propRow key p (if r then "**yes**" else "no"))) ∧
    (Sch.docAnnotationRequired p = some (DocAnn.obj (some "replace") v) →
      processProperty key p r = Except.ok (propRow key p v)) ∧
    (Sch.docAnnotationRequired p = some (DocAnn.obj (some "append") v) →
      processProperty key p r
        = Except.ok (propRow key p ((if r then "**yes**" else "no") ++ v))) ∧
    (Sch.docAnnotationRequired p = some (DocAnn.obj t v) →
      t ≠ some "replace" → t ≠ some "append" →
      processProperty key p r
        = Except.error ("unrecognized docAnnotation type: " ++ tplStr t)) ∧
    (t ≠ some "replace" → t ≠ some "append" →
      buildDocs (badPropNode t v)
        = Except.error ("unrecognized docAnnotation type: " ++ tplStr t)) := by
  refine ⟨?_, ?_, ?_, ?_, ?_⟩
  · intro h; simp [processProperty, h]
  · intro h; simp [processProperty, h]
  · intro h; simp [processProperty, h]
  · intro h h1 h2; simp [processProperty, h, h1, h2]
  · intro h1 h2
    have hb1 : (t == some "replace") = false := beq_eq_false_iff_ne.mpr h1
    have hb2 : (t == some "append") = false := beq_eq_false_iff_ne.mpr h2
    simp [buildDocs, collectSchemas, walkCollect, walkCollectList, objInsert,
      badPropNode, sortByIdLe, insertByIdLe, renderAll, makeMarkdownSection,
      makePropertiesSection, chosenProps, processProps, processProperty, annProp,
      Sch.docAnnotationRequired, Sch.properties, Sch.patternProperties,
      Sch.required, PropList.isNil, nodeSchema, hb1, hb2, Except.bind]
    rfl

/-- The first guard of `typeOrLink`:
`schema.type === 'array' && schema.items`. -/
def arrayItemsCond (s : Sch) : Bool :=
  (Sch.type s == some "array") && SchOpt.isPresent (Sch.items s)

/-- `\x7b type: "array", items: \x7b type: "string" \x7d \x7d`. -/
def arrStrSch : Sch :=
  Sch.mk (some "array") (SchOpt.some (schOfType "string")) Option.none SchList.nil
    SchList.nil SchList.nil [] Option.none Option.none PropsOpt.none PropsOpt.none
    Option.none Option.none Option.none Option.none

/-- `\x7b enum: ["a", "b"] \x7d` with no `type`. -/
def enumABSch : Sch :=
  Sch.mk Option.none SchOpt.none Option.none SchList.nil SchList.nil SchList.nil
    [JsValue.vStr "a", JsValue.vStr "b"] Option.none Option.none PropsOpt.none
    PropsOpt.none Option.none Option.none Option.none Option.none

/-- `\x7b $ref: "/Foo" \x7d`. -/
def refFooSch : Sch :=
  Sch.mk Option.none SchOpt.none (some "/Foo") SchList.nil SchList.nil SchList.nil
    [] Option.none Option.none PropsOpt.none PropsOpt.none Option.none Option.none
    Option.none Option.none

/-- **C5**: `typeOrLink` applies its rendering rules in the fixed priority
order array-with-items, then `$ref`, then `anyOf`/`allOf`/`oneOf` in that
order, then non-empty `enum`, then plain type; consequently
`typeOrLink \x7b type: "array", items: \x7b type: "string" \x7d \x7d` is
`` \x60array\x60[\x60string\x60] `` and `typeOrLink \x7b enum: ["a","b"] \x7d`
with no type renders `_n/a_ in (\x60\x27a\x27\x60, \x60\x27b\x27\x60)`, each
enum member inspected then backtick-quoted. -/
theorem typeOrLink_priority_spec (s it : Sch) (r : String) :
    typeOrLink arrStrSch = "`array`[`string`]" ∧
    typeOrLink enumABSch = "_n/a_ in (`\x27a\x27`, `\x27b\x27`)" ∧
    (Sch.type s = some "array" → Sch.items s = SchOpt.some it →
      typeOrLink s = quoteOrNa (some "array") ++ "[" ++ typeOrLink it ++ "]") ∧
    (arrayItemsCond s = false → Sch.ref s = some r → r ≠ "" →
      typeOrLink s = "[" ++ r ++ "](" ++ anchor r ++ ")") ∧
    (arrayItemsCond s = false → truthyStr (Sch.ref s) = false →
      SchList.nonEmpty (Sch.anyOf s) = true →
      typeOrLink s = "anyOf(" ++ joinSep ", " (typeOrLinkList (Sch.anyOf s)) ++ ")") ∧
    (arrayItemsCond s = false → truthyStr (Sch.ref s) = false →
      SchList.nonEmpty (Sch.anyOf s) = false →
      SchList.nonEmpty (Sch.allOf s) = true →
      typeOrLink s = "allOf(" ++ joinSep ", " (typeOrLinkList (Sch.allOf s)) ++ ")") ∧
    (arrayItemsCond s = false → truthyStr (Sch.ref s) = false →
      SchList.nonEmpty (Sch.anyOf s) = false →
      SchList.nonEmpty (Sch.allOf s) = false →
      SchList.nonEmpty (Sch.oneOf s) = true →
      typeOrLink s = "oneOf(" ++ joinSep ", " (typeOrLinkList (Sch.oneOf s)) ++ ")") ∧
    (arrayItemsCond s = false → truthyStr (Sch.ref s) = false →
      SchList.nonEmpty (Sch.anyOf s) = false →
      SchList.nonEmpty (Sch.allOf s) = false →
      SchList.nonEmpty (Sch.oneOf s) = false →
      Sch.enum s ≠ [] →
      typeOrLink s = quoteOrNa (Sch.type s) ++ " in (" ++
        joinSep ", " ((Sch.enum s).map (fun v => quoteOrNa (some (inspect v)))) ++ ")") ∧
    (arrayItemsCond s = false → truthyStr (Sch.ref s) = false →
      SchList.nonEmpty (Sch.anyOf s) = false →
      SchList.nonEmpty (Sch.allOf s) = false →
      SchList.nonEmpty (Sch.oneOf s) = false →
      Sch.enum s = [] →
      typeOrLink s = quoteOrNa (Sch.type s)) := by
  cases s with
  | mk ty items ref aOf lOf oOf en pa de pr pp rq ex ax da =>
    refine ⟨by decide, by decide, ?_, ?_, ?_, ?_, ?_, ?_, ?_⟩
    · intro h1 h2
      simp only [Sch.type] at h1
      simp only [Sch.items] at h2
      simp [typeOrLink, h1, h2, SchOpt.isPresent, typeOrLinkOpt]
    · intro hc hr hrne
      simp only [arrayItemsCond, Sch.type, Sch.items] at hc
      simp only [Sch.ref] at hr
      simp [typeOrLink, hc, hr, truthyStr, hrne]
    · intro hc hr ha
      simp only [arrayItemsCond, Sch.type, Sch.items] at hc
      simp only [Sch.ref] at hr
      simp only [Sch.anyOf] at ha
      simp [typeOrLink, hc, hr, ha, Sch.anyOf]
    · intro hc hr ha hl
      simp only [arrayItemsCond, Sch.type, Sch.items] at hc
      simp only [Sch.ref] at hr
      simp only [Sch.anyOf] at ha
      simp only [Sch.allOf] at hl
      simp [typeOrLink, hc, hr, ha, hl, Sch.allOf]
    · intro hc hr ha hl ho
      simp only [arrayItemsCond, Sch.type, Sch.items] at hc
      simp only [Sch.ref] at hr
      simp only [Sch.anyOf] at ha
      simp only [Sch.allOf] at hl
      simp only [Sch.oneOf] at ho
      simp [typeOrLink, hc, hr, ha, hl, ho, Sch.oneOf]
    · intro hc hr ha hl ho he
      simp only [arrayItemsCond, Sch.type, Sch.items] at hc
      simp only [Sch.ref] at hr
      simp only [Sch.anyOf] at ha
      simp only [Sch.allOf] at hl
      simp only [Sch.oneOf] at ho
      simp only [Sch.enum] at he
      simp [typeOrLink, hc, hr, ha, hl, ho, he, Sch.enum, Sch.type]
    · intro hc hr ha hl ho he
      simp only [arrayItemsCond, Sch.type, Sch.items] at hc
      simp only [Sch.ref] at hr
      simp only [Sch.anyOf] at ha
      simp only [Sch.allOf] at hl
      simp only [Sch.oneOf] at ho
      simp only [Sch.enum] at he
      simp [typeOrLink, hc, hr, ha, hl, ho, he, Sch.type]

/-- Witness for C5: the array rule at the concrete array-of-string schema and
the `$ref` rule at `\x7b $ref: "/Foo" \x7d`. -/
theorem typeOrLink_priority_spec_witness :
    typeOrLink arrStrSch
      = quoteOrNa (some "array") ++ "[" ++ typeOrLink (schOfType "string") ++ "]" ∧
    typeOrLink refFooSch = "[" ++ "/Foo" ++ "](" ++ anchor "/Foo" ++ ")" :=
  ⟨(typeOrLink_priority_spec arrStrSch (schOfType "string") "/Foo").2.2.1 rfl rfl,
   (typeOrLink_priority_spec refFooSch (schOfType "string") "/Foo").2.2.2.1
     (by decide) rfl (by decide)⟩

/-- Witness for C4: a `bogus` annotation type fails the whole build, and an
`append` annotation appends to the default text. -/
theorem processProperty_required_override_spec_witness :
    buildDocs (badPropNode (some "bogus") "v")
      = Except.error ("unrecognized docAnnotation type: " ++ tplStr (some "bogus")) ∧
    processProperty "x" (annProp (some "append") "*") true
      = Except.ok (propRow "x" (annProp (some "append") "*")
          ((if true then "**yes**" else "no") ++ "*")) :=
  ⟨(processProperty_required_override_spec "x" true (annProp (some "bogus") "v")
      (some "bogus") "v").2.2.2.2 (by decide) (by decide),
   (processProperty_required_override_spec "x" true (annProp (some "append") "*")
      (some "bogus") "*").2.2.1 rfl⟩

/-! ### Order lemmas for the `sortBy('id')` step -/

theorem char_eq_of_toNat_eq {a b : Char} (h : a.toNat = b.toNat) : a = b :=
  Char.ext (UInt32.eq_of_val_eq (Fin.eq_of_val_eq h))

theorem listLexLe_total : ∀ a b : List Char, listLexLe a b = true ∨ listLexLe b a = true := by
  intro a
  induction a with
  | nil => intro b; left; simp [listLexLe]
  | cons x xs ih =>
    intro b
    cases b with
    | nil => right; simp [listLexLe]
    | cons y ys =>
      by_cases h1 : x.toNat < y.toNat
      · left; simp [listLexLe, h1]
      · by_cases h2 : y.toNat < x.toNat
        · right; simp [listLexLe, h2]
        · rcases ih ys with h | h
          · left; simp [listLexLe, h1, h2, h]
          · right; simp [listLexLe, h1, h2, h]

theorem listLexLe_trans : ∀ a b c : List Char,
    listLexLe a b = true → listLexLe b c = true → listLexLe a c = true := by
  intro a
  induction a with
  | nil => intro b c h1 h2; simp [listLexLe]
  | cons x xs ih =>
    intro b c h1 h2
    cases b with
    | nil => simp [listLexLe] at h1
    | cons y ys =>
      cases c with
      | nil => simp [listLexLe] at h2
      | cons z zs =>
        simp only [listLexLe] at h1 h2 ⊢
        by_cases hxy : x.toNat < y.toNat
        · by_cases hyz : y.toNat < z.toNat
          · have hxz : x.toNat < z.toNat := Nat.lt_trans hxy hyz
            simp [hxz]
          · rw [if_neg hyz] at h2
            by_cases hzy : z.toNat < y.toNat
            · rw [if_pos hzy] at h2; exact absurd h2 (by simp)
            · have hxz : x.toNat < z.toNat := by omega
              simp [hxz]
        · rw [if_neg hxy] at h1
          by_cases hyx : y.toNat < x.toNat
          · rw [if_pos hyx] at h1; exact absurd h1 (by simp)
          · rw [if_neg hyx] at h1
            by_cases hyz : y.toNat < z.toNat
            · have hxz : x.toNat < z.toNat := by omega
              simp [hxz]
            · rw [if_neg hyz] at h2
              by_cases hzy : z.toNat < y.toNat
              · rw [if_pos hzy] at h2; exact absurd h2 (by simp)
              · rw [if_neg hzy] at h2
                have hxz : ¬ x.toNat < z.toNat := by omega
                have hzx : ¬ z.toNat < x.toNat := by omega
                rw [if_neg hxz, if_neg hzx]
                exact ih ys zs h1 h2

theorem listLexLe_antisymm : ∀ a b : List Char,
    listLexLe a b = true → listLexLe b a = true → a = b := by
  intro a
  induction a with
  | nil =>
    intro b h1 h2
    cases b with
    | nil => rfl
    | cons y ys => simp [listLexLe] at h2
  | cons x xs ih =>
    intro b h1 h2
    cases b with
    | nil => simp [listLexLe] at h1
    | cons y ys =>
      simp only [listLexLe] at h1 h2
      by_cases hxy : x.toNat < y.toNat
      · have hyx : ¬ y.toNat < x.toNat := by omega
        rw [if_neg hyx, if_pos hxy] at h2
        exact absurd h2 (by simp)
      · by_cases hyx : y.toNat < x.toNat
        · rw [if_neg hxy, if_pos hyx] at h1
          exact absurd h1 (by simp)
        · rw [if_neg hxy, if_neg hyx] at h1
          rw [if_neg hyx, if_neg hxy] at h2
          have hxyeq : x = y := char_eq_of_toNat_eq (by omega)
          rw [hxyeq, ih ys h1 h2]

theorem strLeB_trans {a b c : String} (h1 : strLeB a b = true) (h2 : strLeB b c = true) :
    strLeB a c = true := listLexLe_trans _ _ _ h1 h2

theorem strLeB_total (a b : String) : strLeB a b = true ∨ strLeB b a = true :=
  listLexLe_total _ _

theorem strLeB_antisymm {a b : String} (h1 : strLeB a b = true) (h2 : strLeB b a = true) :
    a = b := by
  cases a with
  | mk d1 =>
    cases b with
    | mk d2 => exact congrArg String.mk (listLexLe_antisymm d1 d2 h1 h2)

/-! ### The sort is a permutation producing an id-sorted list -/

theorem insertByIdLe_perm (n : SchemaNode) :
    ∀ l : List SchemaNode, (insertByIdLe n l).Perm (n :: l) := by
  intro l
  induction l with
  | nil => simp [insertByIdLe]
  | cons m rest ih =>
    by_cases h : strLeB (nodeId n) (nodeId m) = true
    · simp [insertByIdLe, h]
    · simp only [insertByIdLe, if_neg h]
      exact (ih.cons m).trans (List.Perm.swap n m rest)

theorem sortByIdLe_perm : ∀ l : List SchemaNode, (sortByIdLe l).Perm l := by
  intro l
  induction l with
  | nil => simp [sortByIdLe]
  | cons n rest ih =>
    exact (insertByIdLe_perm n (sortByIdLe rest)).trans (ih.cons n)

theorem pairwise_insertByIdLe (n : SchemaNode) :
    ∀ l : List SchemaNode,
      l.Pairwise (fun a b => strLeB (nodeId a) (nodeId b) = true) →
      (insertByIdLe n l).Pairwise (fun a b => strLeB (nodeId a) (nodeId b) = true) := by
  intro l
  induction l with
  | nil => intro _; simp [insertByIdLe]
  | cons m rest ih =>
    intro h
    rcases List.pairwise_cons.mp h with ⟨hm, hrest⟩
    by_cases hle : strLeB (nodeId n) (nodeId m) = true
    · simp only [insertByIdLe, if_pos hle]
      refine List.pairwise_cons.mpr ⟨?_, h⟩
      intro b hb
      rcases List.mem_cons.mp hb with rfl | hb2
      · exact hle
      · exact strLeB_trans hle (hm b hb2)
    · simp only [insertByIdLe, if_neg hle]
      refine List.pairwise_cons.mpr ⟨?_, ih hrest⟩
      intro b hb
      rcases List.mem_cons.mp ((insertByIdLe_perm n rest).mem_iff.mp hb) with rfl | hb2
      · rcases strLeB_total (nodeId b) (nodeId m) with h' | h'
        · exact absurd h' hle
        · exact h'
      · exact hm b hb2

theorem sortByIdLe_sorted : ∀ l : List SchemaNode,
    (sortByIdLe l).Pairwise (fun a b => strLeB (nodeId a) (nodeId b) = true) := by
  intro l
  induction l with
  | nil => simp [sortByIdLe]
  | cons n rest ih => exact pairwise_insertByIdLe n (sortByIdLe rest) ih

/-! ### The document depends on a node only through its id and schema -/

/-- The observable part of a node for rendering: its `id` and its `schema`. -/
def viewOf (n : SchemaNode) : String × Sch := (nodeId n, nodeSchema n)

/-- The observable part of a collected entry: the key and the node's
`schema`. -/
def entryView (p : String × SchemaNode) : String × Sch := (p.1, nodeSchema p.2)

theorem makeMarkdownSection_congr (a b : SchemaNode) (h1 : nodeId a = nodeId b)
    (h2 : nodeSchema a = nodeSchema b) :
    makeMarkdownSection a = makeMarkdownSection b := by
  cases a with
  | mk ia sa da =>
    cases b with
    | mk ib sb db =>
      simp only [nodeId] at h1
      simp only [nodeSchema] at h2
      subst h1
      subst h2
      rfl

theorem renderAll_congr : ∀ l1 l2 : List SchemaNode,
    l1.map viewOf = l2.map viewOf → renderAll l1 = renderAll l2 := by
  intro l1
  induction l1 with
  | nil =>
    intro l2 h
    cases l2 with
    | nil => rfl
    | cons b t2 => simp at h
  | cons a t1 ih =>
    intro l2 h
    cases l2 with
    | nil => simp at h
    | cons b t2 =>
      simp only [List.map_cons, List.cons.injEq] at h
      have hid : nodeId a = nodeId b := congrArg Prod.fst h.1
      have hsch : nodeSchema a = nodeSchema b := congrArg Prod.snd h.1
      simp only [renderAll]
      rw [makeMarkdownSection_congr a b hid hsch, ih t2 h.2]

/-- Two lists of (id, schema) pairs that are permutations of each other, both
sorted by id, with duplicate-free ids, are equal. -/
theorem sorted_nodup_perm_eq :
    ∀ l1 l2 : List (String × Sch), l1.Perm l2 →
      l1.Pairwise (fun a b => strLeB a.1 b.1 = true) →
      l2.Pairwise (fun a b => strLeB a.1 b.1 = true) →
      (l1.map Prod.fst).Nodup → l1 = l2 := by
  intro l1
  induction l1 with
  | nil =>
    intro l2 hp _ _ _
    exact (hp.symm.eq_nil).symm
  | cons a t1 ih =>
    intro l2 hp hs1 hs2 hn
    cases l2 with
    | nil => exact absurd hp.eq_nil (by simp)
    | cons b t2 =>
      simp only [List.map_cons] at hn
      rcases List.pairwise_cons.mp hs1 with ⟨ha1, hs1t⟩
      rcases List.pairwise_cons.mp hs2 with ⟨hb2, hs2t⟩
      have hab : a = b := by
        rcases List.mem_cons.mp (hp.subset (List.mem_cons_self a t1)) with h | hat2
        · exact h
        · have hba : strLeB b.1 a.1 = true := hb2 a hat2
          rcases List.mem_cons.mp (hp.symm.subset (List.mem_cons_self b t2)) with h | hbt1
          · exact h.symm
          · have hab' : strLeB a.1 b.1 = true := ha1 b hbt1
            have hkey : a.1 = b.1 := strLeB_antisymm hab' hba
            exfalso
            have hmem : a.1 ∈ t1.map Prod.fst := List.mem_map.mpr ⟨b, hbt1, hkey.symm⟩
            exact (List.nodup_cons.mp hn).1 hmem
      subst hab
      have ht : t1 = t2 := ih t2 hp.cons_inv hs1t hs2t (List.nodup_cons.mp hn).2
      rw [ht]

/-- **C7**: `buildDocs` is deterministic — the same graph yields the same
document — and order-stable: two graphs whose collected mappings hold the
same entries (the same id-to-schema associations, in any order, as produced
by reordering `dependencies` edges) yield byte-identical documents, because
the final section order is the lexicographic order of ids, not discovery
order. -/
theorem buildDocs_deterministic_order_stable (g1 g2 : SchemaNode) :
    buildDocs g1 = buildDocs g1 ∧
    (((collectSchemas g1).map entryView).Perm ((collectSchemas g2).map entryView) →
      buildDocs g1 = buildDocs g2) := by
  refine ⟨rfl, fun hperm => ?_⟩
  have hview : ∀ g : SchemaNode,
      (collectSchemas g).map entryView
        = ((collectSchemas g).map Prod.snd).map viewOf := by
    intro g
    rw [List.map_map]
    exact List.map_congr_left (fun p hp => by
      have hid := collect_entryId g p hp
      simp [entryView, viewOf, Function.comp, hid])
  have hpv : ((((collectSchemas g1).map Prod.snd)).map viewOf).Perm
      ((((collectSchemas g2).map Prod.snd)).map viewOf) := by
    rw [← hview g1, ← hview g2]; exact hperm
  have hs1 : ((sortByIdLe ((collectSchemas g1).map Prod.snd)).map viewOf).Pairwise
      (fun a b => strLeB a.1 b.1 = true) :=
    List.Pairwise.map viewOf (fun a b h => h)
      (sortByIdLe_sorted ((collectSchemas g1).map Prod.snd))
  have hs2 : ((sortByIdLe ((collectSchemas g2).map Prod.snd)).map viewOf).Pairwise
      (fun a b => strLeB a.1 b.1 = true) :=
    List.Pairwise.map viewOf (fun a b h => h)
      (sortByIdLe_sorted ((collectSchemas g2).map Prod.snd))
  have hperm12 : ((sortByIdLe ((collectSchemas g1).map Prod.snd)).map viewOf).Perm
      ((sortByIdLe ((collectSchemas g2).map Prod.snd)).map viewOf) :=
    ((sortByIdLe_perm _).map viewOf).trans (hpv.trans (((sortByIdLe_perm _).map viewOf).symm))
  have hfst : ∀ g : SchemaNode,
      ((sortByIdLe ((collectSchemas g).map Prod.snd)).map viewOf).map Prod.fst
        = (sortByIdLe ((collectSchemas g).map Prod.snd)).map nodeId := by
    intro g
    rw [List.map_map]
    exact List.map_congr_left (fun p _ => rfl)
  have hvnodup : (((collectSchemas g1).map Prod.snd).map nodeId).Nodup := by
    have hB : ((collectSchemas g1).map Prod.snd).map nodeId = keysOf (collectSchemas g1) := by
      rw [List.map_map]
      exact List.map_congr_left (fun p hp => collect_entryId g1 p hp)
    rw [hB]
    exact collect_keys_nodup g1
  have hnodup : (((sortByIdLe ((collectSchemas g1).map Prod.snd)).map viewOf).map Prod.fst).Nodup := by
    rw [hfst g1]
    exact (((sortByIdLe_perm _).map nodeId).symm).nodup hvnodup
  have hveq : (sortByIdLe ((collectSchemas g1).map Prod.snd)).map viewOf
      = (sortByIdLe ((collectSchemas g2).map Prod.snd)).map viewOf :=
    sorted_nodup_perm_eq _ _ hperm12 hs1 hs2 hnodup
  have hrender : renderAll (sortByIdLe ((collectSchemas g1).map Prod.snd))
      = renderAll (sortByIdLe ((collectSchemas g2).map Prod.snd)) :=
    renderAll_congr _ _ hveq
  simp only [buildDocs]
  rw [hrender]

/-- A two-child root whose dependencies are listed as A then B. -/
def rootAB : SchemaNode :=
  SchemaNode.mk "/R" emptySch
    (NodeList.cons (SchemaNode.mk "/A" emptySch NodeList.nil)
      (NodeList.cons (SchemaNode.mk "/B" emptySch NodeList.nil) NodeList.nil))

/-- The same root with the two dependency edges in the opposite order. -/
def rootBA : SchemaNode :=
  SchemaNode.mk "/R" emptySch
    (NodeList.cons (SchemaNode.mk "/B" emptySch NodeList.nil)
      (NodeList.cons (SchemaNode.mk "/A" emptySch NodeList.nil) NodeList.nil))

/-- Witness for C7: reordering the dependency edges of a concrete two-child
root leaves the generated document unchanged. -/
theorem buildDocs_deterministic_order_stable_witness :
    buildDocs rootAB = buildDocs rootBA :=
  (buildDocs_deterministic_order_stable rootAB rootBA).2 (by decide)

/-- **C9**: for the root node
`\x7b id: "/Foo", schema: \x7b type: "string" \x7d, dependencies: [] \x7d`,
`buildDocs` returns a document containing the heading `## /Foo`, the fallback
description text `_No description given._`, a Details block whose Type line
shows backtick-quoted `string` and whose Pattern line shows `_n/a_`, and
containing no Examples, Anti-Examples, or Properties sections. -/
theorem buildDocs_foo_end_to_end :
    okContains (buildDocs fooNode) "## /Foo" = true ∧
    okContains (buildDocs fooNode) "_No description given._" = true ∧
    okContains (buildDocs fooNode) "* **Type** - `string`" = true ∧
    okContains (buildDocs fooNode) "* **Pattern** - _n/a_" = true ∧
    okAvoids (buildDocs fooNode) "#### Examples" = true ∧
    okAvoids (buildDocs fooNode) "#### Anti-Examples" = true ∧
    okAvoids (buildDocs fooNode) "#### Properties" = true := by
  exact ⟨by decide, by decide, by decide, by decide, by decide, by decide, by decide⟩
